import Mathlib

/-!
# Verification of `src/server/src/lib/files.ts` (voice-web)

A shallow embedding of the `Files` class from `src/server/src/lib/files.ts`.
The class catalogs voice-clip objects held in an S3 bucket, groups keys into
"globs" (key truncated at its first `.`), batch-loads `.txt` transcripts,
converts missing `.mp3` encodings, and serves random `(key, sentence)` pairs.

JavaScript specifics modelled explicitly:
* `String.prototype.indexOf` returns `-1` when the character is absent, and
  `String.prototype.substr(0, len)` returns `""` for `len ≤ 0`
  (`jsIndexOfDot` / `jsSubstrFromZero`).
* JavaScript object keys (`Object.keys`) enumerate string keys in insertion
  order; `this.files` is modelled as an insertion-ordered association list.
* Plain `function (err, data) { ... }` callbacks handed to the AWS SDK are
  invoked with `this` bound to the SDK's request/response object, never to the
  `Files` instance, so `this.files[...]` inside them reads the property
  `files` of that foreign object (`undefined`) and throws a `TypeError`.
* A promise executor that calls neither `res` nor `rej` leaves the promise
  pending forever; a rejected promise chained only with `.then(...)` (no
  rejection handler) never settles the outer promise either.
-/

namespace VoiceWeb

/-- Constant `MP3_EXT` from files.ts. -/
def MP3_EXT : String := ".mp3"

/-- Constant `CONVERTABLE_EXTS` from files.ts. -/
def CONVERTABLE_EXTS : List String := [".ogg", ".m4a"]

/-- `path.indexOf('.')` — index of the first `'.'` in the string, `-1` when
there is none (JavaScript `String.prototype.indexOf`). -/
def jsIndexOfDot (s : String) : Int :=
  match s.data.findIdx? (fun c => c = '.') with
  | some i => (i : Int)
  | none => -1

/-- `s.substr(0, len)` — JavaScript `String.prototype.substr` with start 0:
returns the empty string when `len ≤ 0`, otherwise the first `len`
characters. -/
def jsSubstrFromZero (s : String) (len : Int) : String :=
  if len ≤ 0 then "" else ⟨s.data.take len.toNat⟩

/-- `getGlob` (files.ts lines 40–42):
`return path.substr(0, path.indexOf('.'));` — the key truncated at its
*first* dot; the empty string when the key has no dot. -/
def getGlob (p : String) : String :=
  jsSubstrFromZero p (jsIndexOfDot p)

/-- Modelled from the spec: `getFileExt` is imported from
`src/server/src/lib/utility.ts`, which is not part of the repository
snapshot. The spec says: "compute `extension` = the key's file extension,
lower-cased", i.e. the final extension segment including its dot (found by
scanning from the end of the key to its last dot). A key without a dot has
no extension (empty string). -/
def getFileExt (p : String) : String :=
  match (p.data.reverse.findIdx? (fun c => c = '.')) with
  | none => ""
  | some i => ⟨('.' :: (p.data.reverse.take i).reverse).map Char.toLower⟩

/-- One catalog entry of `this.files`: `{ sentence: string | null,
exts: string[] }`. -/
structure Recording where
  sentence : Option String
  exts : List String
deriving Repr, DecidableEq

/-- The fresh entry created on first sight of a glob:
`{ sentence: null, exts: [] }`. -/
def freshRecording : Recording := ⟨none, []⟩

/-- The fields of a `Files` instance:
`initialized`, `files` (insertion-ordered map glob → Recording),
`paths` (`Object.keys(this.files)` frozen at scan end), `mp3s`. -/
structure FilesState where
  initialized : Bool
  files : List (String × Recording)
  paths : List String
  mp3s : List String
deriving Repr, DecidableEq

/-- The constructor state: `initialized = false`, everything empty. -/
def FilesState.empty : FilesState := ⟨false, [], [], []⟩

/-- The `exts` array of the catalog entry for `g` (`[]` when `g` has no
entry; the code never reads a missing entry on its reachable paths). -/
def extsOfFiles (files : List (String × Recording)) (g : String) : List String :=
  ((files.lookup g).getD freshRecording).exts

/-- `if (!this.files[glob]) this.files[glob] = {sentence: null, exts: []}` —
inserting at the end preserves JavaScript key insertion order. -/
def ensureRec (files : List (String × Recording)) (g : String) :
    List (String × Recording) :=
  if (files.lookup g).isSome then files else files ++ [(g, freshRecording)]

/-- `this.files[glob].exts.push(ext)` — append `ext` to the entry for `g`,
with no deduplication. -/
def pushExt (files : List (String × Recording)) (g : String) (ext : String) :
    List (String × Recording) :=
  files.map (fun p => if p.1 = g then (p.1, ⟨p.2.sentence, p.2.exts ++ [ext]⟩) else p)

/-- Accumulator of the scan loop inside `init` (files.ts lines 195–225):
the catalog being built, plus the `{path, glob}` items pushed onto the
transcript batch queue, in push order. -/
structure ScanAcc where
  files : List (String × Recording)
  txtItems : List (String × String)
deriving Repr, DecidableEq

/-- One iteration of the scan loop in `init` over a listed key:
compute `glob` and `ext`; `continue` when `glob` is falsy (empty string);
ensure a catalog entry exists; push `.txt` keys onto the transcript batch
queue, append every other extension to the entry's `exts`. -/
def scanStep (acc : ScanAcc) (key : String) : ScanAcc :=
  let glob := getGlob key
  let ext := getFileExt key
  if glob = "" then acc
  else
    let files := ensureRec acc.files glob
    if ext = ".txt" then
      ⟨files, acc.txtItems ++ [(key, glob)]⟩
    else
      ⟨pushExt files glob ext, acc.txtItems⟩

/-- The whole scan loop of `init` over the listing `data.Contents`. -/
def scanFold (keys : List String) : ScanAcc :=
  keys.foldl scanStep ⟨[], []⟩

/-- `this.paths = Object.keys(this.files)` — insertion order of the keys. -/
def ScanAcc.paths (acc : ScanAcc) : List String :=
  acc.files.map (fun p => p.1)

/-- `getMissingMP3s` (files.ts lines 72–81): the paths whose entry's `exts`
does not contain `MP3_EXT`. -/
def getMissingMP3s (st : FilesState) : List String :=
  st.paths.filter (fun p => ¬ (extsOfFiles st.files p).contains MP3_EXT)

/-- The source-extension selection loop of `convertMissingToMP3s`
(files.ts lines 141–149): scan `info.exts` in array order and take the
first member of `CONVERTABLE_EXTS`; `ext` stays `undefined` (`none`) when
no element qualifies. -/
def selectExt (exts : List String) : Option String :=
  exts.find? (fun e => CONVERTABLE_EXTS.contains e)

/-- The jobs `convertMissingToMP3s` pushes onto its conversion queue
(files.ts lines 140–158): one `{glob, ext}` per missing glob that has a
convertible extension; a missing glob without one is skipped
(`if (ext)` guards the push). -/
def conversionJobs (st : FilesState) : List (String × String) :=
  (getMissingMP3s st).filterMap
    (fun g => (selectExt (extsOfFiles st.files g)).map (fun e => (g, e)))

/-- `generateMP3List` (files.ts lines 170–177): rebuild `this.mp3s` as the
paths whose entry's `exts` contains `MP3_EXT`. -/
def generateMP3List (st : FilesState) : FilesState :=
  { st with mp3s := st.paths.filter (fun p => (extsOfFiles st.files p).contains MP3_EXT) }

/-- Result of `getRandomClip`: either a rejected promise carrying the
rejection message, or a resolved `[key, sentence]` pair. -/
inductive ClipResult where
  | rejected (msg : String)
  | resolved (key : String) (sentence : Option String)
deriving Repr, DecidableEq

/-- `getRandomClip` (files.ts lines 246–263). `idx` stands for
`Math.floor(Math.random() * items.length)`, which lies in
`[0, items.length)` whenever the list is non-empty. The state is returned
alongside the result: the method body contains no assignment to any field.
(The `getD` defaults are unreachable for `idx < mp3s.length` and
`mp3s ⊆ Object.keys(files)`, the invariant `generateMP3List`
establishes.) -/
def getRandomClip (st : FilesState) (idx : Nat) : ClipResult × FilesState :=
  if st.initialized = false then
    (.rejected "Files not init.", st)
  else if st.mp3s.length = 0 then
    (.rejected "No files.", st)
  else
    let glob := st.mp3s.getD idx ""
    let key := glob ++ MP3_EXT
    let info := (st.files.lookup glob).getD freshRecording
    (.resolved key info.sentence, st)

/-- Outcome of the `process` worker (files.ts lines 47–59) on one
`{path, glob}` item, given the store's answer for `path`. On a fetch error
the callback just forwards the error (`cb(err)`). On success the code runs
`this.files[data.glob].sentence = sentence` inside a plain
`function (err, s3Data)` callback: `this` there is the AWS SDK's
request/response object, not the `Files` instance, so `this.files` is
`undefined` and the member access throws a `TypeError`. In both cases the
`Files` instance is left unchanged. -/
inductive ProcessOutcome where
  | calledBackError (e : String)
  | threwTypeError
deriving Repr, DecidableEq

/-- `process` as written (see `ProcessOutcome`): the `Files` state that
results, paired with what the callback did. -/
def process (st : FilesState) (_item : String × String)
    (fetch : Except String String) : ProcessOutcome × FilesState :=
  match fetch with
  | .error e => (.calledBackError e, st)
  | .ok _body => (.threwTypeError, st)

/-- Modelled from the spec (§4.3 Transcript Loader): the intended behaviour
of `process` — "for each, `get` the object at `path` from the store, decode
its body as UTF-8 text, and set `catalog[glob].transcript` to that text". -/
def processIntended (st : FilesState) (item : String × String)
    (fetch : Except String String) : FilesState :=
  match fetch with
  | .error _ => st
  | .ok body =>
      { st with files :=
          st.files.map (fun p =>
            if p.1 = item.2 then (p.1, ⟨some body, p.2.exts⟩) else p) }

/-- Possible settlements of the promise returned by `init`
(files.ts lines 182–241). `pending` means neither `res` nor `rej` was ever
invoked. -/
inductive InitOutcome where
  | resolvedInit
  | rejectedInit (e : String)
  | pendingInit
deriving Repr, DecidableEq

/-- How the promise returned by `init` settles, as a function of the
listing result and of how `convertMissingToMP3s` settles.
* Listing error: the callback logs and `return`s — neither `res` nor `rej`
  is called, the promise stays pending.
* Empty catalog: `res()` is called at once.
* Otherwise `this.convertMissingToMP3s().then(...)` — `res()` runs when the
  conversion promise resolves; when it rejects, the chain has no rejection
  handler, so `init`'s promise never settles. -/
def initOutcome (listing : Except String (List String))
    (normOutcome : Except String Unit) : InitOutcome :=
  match listing with
  | .error _ => .pendingInit
  | .ok keys =>
      let acc := scanFold keys
      if acc.paths.isEmpty then .resolvedInit
      else
        match normOutcome with
        | .ok _ => .resolvedInit
        | .error _ => .pendingInit

/-- Observable events of one run of `init`. -/
inductive InitEvent where
  | scanned
  | normalizeStart
  | transcriptFetchCompleted (glob : String)
  | conversionDrained
  | mp3ListGenerated
  | readySet
  | initResolved
deriving Repr, DecidableEq

/-- Event trace of one execution of `init` on listing `keys`, in execution
order, for a schedule consistent with the code. The prefix up to and
including `normalizeStart` is forced in *every* execution: the scan loop and
the call `this.convertMissingToMP3s()` run synchronously inside the single
`listObjectsV2` callback, so no asynchronous `getObject` completion for a
transcript can be interleaved before normalization starts. The relative
order of the asynchronous completions after that prefix is one valid choice
(completion order across concurrent batches is unspecified). `readySet` and
`initResolved` are forced to follow the conversion queue's drain: `res()`
and `this.initialized = true` run inside
`this.convertMissingToMP3s().then(...)`. -/
def initTrace (keys : List String) : List InitEvent :=
  let acc := scanFold keys
  if acc.paths.isEmpty then
    [.scanned, .readySet, .initResolved]
  else
    [.scanned, .normalizeStart]
      ++ acc.txtItems.map (fun it => .transcriptFetchCompleted it.2)
      ++ [.conversionDrained, .mp3ListGenerated, .readySet, .initResolved]

/-- Whether an `InitOutcome` is a rejection. -/
def InitOutcome.isRejected : InitOutcome → Bool
  | .rejectedInit _ => true
  | _ => false

/-- List-level core of `getGlob`: the characters before the first dot, `[]`
when there is no dot (matching `substr(0, -1) = ""`). -/
def listGlob (l : List Char) : List Char :=
  match l.findIdx? (fun c => c = '.') with
  | none => []
  | some i => l.take i

/-- The glob computation as the spec and claim state it: "the key with its
final extension segment stripped" — everything before the *last* dot (the
key itself when it has no dot). Stated for comparison with `getGlob`. -/
def stripFinalExtSpec (key : String) : String :=
  match key.data.reverse.findIdx? (fun c => c = '.') with
  | none => key
  | some i => ⟨(key.data.reverse.drop (i + 1)).reverse⟩

/-- The conversion-source selection as the claim states it: scan the
allow-list in the fixed priority order `'.ogg'` before `'.m4a'` and take the
first one present in the recording's encodings. Stated for comparison with
`selectExt`, which the code implements. -/
def selectExtSpecPriority (exts : List String) : Option String :=
  CONVERTABLE_EXTS.find? (fun e => exts.contains e)

/-- C1: the code does NOT surface a `listObjectsV2` error as a rejection of
`init`. The error handler (files.ts lines 190–193) logs and `return`s
without invoking `rej`, so the promise stays pending forever; moreover no
execution of `init` ever rejects (a conversion-batch rejection is also
swallowed, by the handler-less `.then`). The claim's "surfaced as a
rejection to the caller of init" contradicts the code. -/
theorem init_listing_error_stays_pending :
    initOutcome (.error "connection refused") (.ok ()) = .pendingInit ∧
    (∀ e norm, initOutcome (.error e) norm = .pendingInit) ∧
    (∀ listing norm, (initOutcome listing norm).isRejected = false) := by
  refine ⟨rfl, fun e norm => rfl, fun listing norm => ?_⟩
  cases listing with
  | error e => rfl
  | ok keys =>
      unfold initOutcome
      cases hemp : (scanFold keys).paths.isEmpty with
      | true => simp [hemp, InitOutcome.isRejected]
      | false => cases norm <;> simp [hemp, InitOutcome.isRejected]

/-- C3: the transcript worker `process` never stores the fetched text. The
`getObject` callback is a plain `function`, so `this` inside it is the AWS
response object, not the `Files` instance; the success path throws a
`TypeError` and the catalog keeps a `null` sentence, whereas the spec's
intended behaviour (`processIntended`) would store the decoded body. -/
theorem process_does_not_store_transcript :
    (∀ st item body, process st item (.ok body) = (.threwTypeError, st)) ∧
    (process ⟨false, [("a", ⟨none, [".ogg"]⟩)], ["a"], []⟩ ("a.txt", "a")
        (.ok "hello")).2.files.lookup "a" = some ⟨none, [".ogg"]⟩ ∧
    (processIntended ⟨false, [("a", ⟨none, [".ogg"]⟩)], ["a"], []⟩ ("a.txt", "a")
        (.ok "hello")).files.lookup "a" = some ⟨some "hello", [".ogg"]⟩ :=
  ⟨fun _ _ _ => rfl, by decide, by decide⟩

/-- C4: `getRandomClip` rejects with `'Files not init.'` whenever the
instance is not initialized, and rejects with `'No files.'` whenever it is
initialized but the mp3 list is empty; both paths return a rejected promise
(a value of the model, never an exception — the embedding is total). -/
theorem getRandomClip_rejections (st : FilesState) (idx : Nat) :
    (st.initialized = false →
       (getRandomClip st idx).1 = .rejected "Files not init.") ∧
    (st.initialized = true → st.mp3s = [] →
       (getRandomClip st idx).1 = .rejected "No files.") := by
  constructor
  · intro h; simp [getRandomClip, h]
  · intro h hm; simp [getRandomClip, h, hm]

/-- C4 witness: both rejection paths at concrete states. -/
theorem getRandomClip_rejections_witness :
    (getRandomClip ⟨false, [], [], []⟩ 0).1 = .rejected "Files not init." ∧
    (getRandomClip ⟨true, [], [], []⟩ 0).1 = .rejected "No files." :=
  ⟨(getRandomClip_rejections ⟨false, [], [], []⟩ 0).1 rfl,
   (getRandomClip_rejections ⟨true, [], [], []⟩ 0).2 rfl rfl⟩

/-- C5: when initialized with a non-empty mp3 list, `getRandomClip` resolves
with the pair `(glob ++ ".mp3", sentence)` where `glob` is the selected
element of `mp3s` (the index is `Math.floor(Math.random()*length)`, always
in range), the sentence is that glob's stored (possibly null) sentence, and
the returned key ends with `".mp3"`. -/
theorem getRandomClip_success (st : FilesState) (idx : Nat) (rec : Recording)
    (hinit : st.initialized = true) (hlen : idx < st.mp3s.length)
    (hrec : st.files.lookup (st.mp3s.getD idx "") = some rec) :
    (getRandomClip st idx).1 =
      .resolved (st.mp3s.getD idx "" ++ MP3_EXT) rec.sentence ∧
    st.mp3s.getD idx "" ∈ st.mp3s ∧
    MP3_EXT.data <:+ (st.mp3s.getD idx "" ++ MP3_EXT).data := by
  have hne : ¬ st.mp3s.length = 0 := by omega
  refine ⟨?_, ?_, ?_⟩
  · simp only [getRandomClip, hinit, Bool.true_eq_false, if_false, hne, if_neg,
      not_false_eq_true]
    rw [List.getD_eq_getElem?_getD] at hrec
    simp [hrec]
  · rw [List.getD_eq_getElem st.mp3s "" hlen]
    exact List.getElem_mem hlen
  · rw [String.data_append]
    exact List.suffix_append _ _

/-- C5 witness: a concrete ready state with one mp3 glob and a null
sentence (the transcript may be null and is returned as such). -/
theorem getRandomClip_success_witness :
    (getRandomClip ⟨true, [("a", ⟨none, [".mp3"]⟩)], ["a"], ["a"]⟩ 0).1 =
      .resolved ((["a"] : List String).getD 0 "" ++ MP3_EXT)
        (Recording.sentence ⟨none, [".mp3"]⟩) ∧
    (["a"] : List String).getD 0 "" ∈ (["a"] : List String) ∧
    MP3_EXT.data <:+ ((["a"] : List String).getD 0 "" ++ MP3_EXT).data :=
  getRandomClip_success ⟨true, [("a", ⟨none, [".mp3"]⟩)], ["a"], ["a"]⟩ 0
    ⟨none, [".mp3"]⟩ rfl (by decide) rfl

/-- C6: after `generateMP3List`, a glob is in `mp3s` iff it is in `paths`
and its catalog entry's `exts` contains `".mp3"`. -/
theorem mem_generateMP3List (st : FilesState) (g : String) :
    g ∈ (generateMP3List st).mp3s ↔
      g ∈ st.paths ∧ ∃ r, st.files.lookup g = some r ∧ MP3_EXT ∈ r.exts := by
  unfold generateMP3List
  rw [List.mem_filter]
  refine and_congr_right fun _ => ?_
  unfold extsOfFiles
  cases hl : st.files.lookup g with
  | none => simp [freshRecording]
  | some r => simp

/-- C10: `getRandomClip` leaves every field of the `Files` state unchanged,
whatever branch it takes. -/
theorem getRandomClip_state_unchanged (st : FilesState) (idx : Nat) :
    (getRandomClip st idx).2 = st := by
  unfold getRandomClip
  split
  · rfl
  · split <;> rfl

/-- Characters other than the dot, as a Bool predicate. -/
def notDot (c : Char) : Bool := !(c == '.')

/-- `jsIndexOfDot` when the string has no dot. -/
lemma jsIndexOfDot_eq_none (s : String)
    (h : s.data.findIdx? (fun c => c = '.') = none) : jsIndexOfDot s = -1 := by
  unfold jsIndexOfDot; rw [h]

/-- `jsIndexOfDot` when the first dot is at index `i`. -/
lemma jsIndexOfDot_eq_some (s : String) (i : Nat)
    (h : s.data.findIdx? (fun c => c = '.') = some i) : jsIndexOfDot s = i := by
  unfold jsIndexOfDot; rw [h]

/-- `listGlob` when the list has no dot. -/
lemma listGlob_eq_nil (l : List Char)
    (h : l.findIdx? (fun c => c = '.') = none) : listGlob l = [] := by
  unfold listGlob; rw [h]

/-- `listGlob` when the first dot is at index `i`. -/
lemma listGlob_eq_take (l : List Char) (i : Nat)
    (h : l.findIdx? (fun c => c = '.') = some i) : listGlob l = l.take i := by
  unfold listGlob; rw [h]

/-- `getGlob` is `listGlob` on the character list. -/
lemma getGlob_eq_listGlob (s : String) : getGlob s = ⟨listGlob s.data⟩ := by
  cases h : s.data.findIdx? (fun c => c = '.') with
  | none =>
      rw [getGlob, jsIndexOfDot_eq_none s h, listGlob_eq_nil s.data h]
      rfl
  | some i =>
      rw [getGlob, jsIndexOfDot_eq_some s i h, listGlob_eq_take s.data i h]
      unfold jsSubstrFromZero
      by_cases hi : i = 0
      · subst hi; simp
      · rw [if_neg (by omega)]
        simp

/-- The first dot of `l ++ '.' :: r` sits right after the dot-free prefix
of `l`. -/
lemma findIdx?_append_dot (r : List Char) :
    ∀ l : List Char,
      (l ++ '.' :: r).findIdx? (fun c => c = '.') =
        some (l.takeWhile notDot).length := by
  intro l
  induction l with
  | nil => simp [List.findIdx?_cons]
  | cons c l ih =>
      rw [List.cons_append, List.findIdx?_cons]
      by_cases hc : c = '.'
      · subst hc; simp [List.takeWhile_cons, notDot]
      · rw [if_neg (by simpa using hc), List.findIdx?_succ, ih]
        simp [List.takeWhile_cons, notDot, hc]

/-- `l.take` of the length of its `takeWhile` recovers the `takeWhile`. -/
lemma take_takeWhile_length (p : Char → Bool) :
    ∀ l : List Char, l.take (l.takeWhile p).length = l.takeWhile p := by
  intro l
  induction l with
  | nil => rfl
  | cons c l ih => by_cases hc : p c <;> simp [List.takeWhile_cons, hc, ih]

/-- The `takeWhile` of a list is no longer than the list. -/
lemma takeWhile_length_le (p : Char → Bool) :
    ∀ l : List Char, (l.takeWhile p).length ≤ l.length := by
  intro l
  induction l with
  | nil => exact Nat.le_refl 0
  | cons c l ih =>
      by_cases hc : p c
      · simpa [List.takeWhile_cons, hc] using Nat.succ_le_succ ih
      · simp [List.takeWhile_cons, hc]

/-- Appending anything after a dot leaves the glob at the dot-free prefix of
the part before the dot. -/
lemma listGlob_append_dot (l r : List Char) :
    listGlob (l ++ '.' :: r) = l.takeWhile notDot := by
  rw [listGlob_eq_take _ _ (findIdx?_append_dot r l)]
  rw [List.take_append_of_le_length (takeWhile_length_le notDot l)]
  exact take_takeWhile_length notDot l

/-- C7 counterexample: the code strips from the *first* dot, not the final
extension segment. On the key `"a.b.ogg"` the computed glob is `"a"`,
while the claim's "key with its final extension segment stripped" is
`"a.b"`. -/
theorem getGlob_first_dot_cex :
    getGlob "a.b.ogg" = "a" ∧ stripFinalExtSpec "a.b.ogg" = "a.b" ∧
    getGlob "a.b.ogg" ≠ stripFinalExtSpec "a.b.ogg" := by decide

/-- C7 amended: the computed glob is the key truncated at its *first* dot.
Two keys differing only in their (dot-initial) final extension segment
still map to the same glob, hence the same catalog entry; a key with no dot
yields the empty glob and is skipped by the scan loop, creating no catalog
entry. -/
theorem getGlob_amended :
    (∀ (b e₁ e₂ : String) (r₁ r₂ : List Char),
        e₁.data = '.' :: r₁ → e₂.data = '.' :: r₂ →
        getGlob (b ++ e₁) = getGlob (b ++ e₂)) ∧
    (∀ key : String, '.' ∉ key.data →
        getGlob key = "" ∧ ∀ acc, scanStep acc key = acc) := by
  constructor
  · intro b e₁ e₂ r₁ r₂ h₁ h₂
    rw [getGlob_eq_listGlob, getGlob_eq_listGlob, String.data_append,
      String.data_append, h₁, h₂, listGlob_append_dot, listGlob_append_dot]
  · intro key hk
    have hg : getGlob key = "" := by
      rw [getGlob_eq_listGlob]
      unfold listGlob
      have hnone : key.data.findIdx? (fun c => c = '.') = none := by
        rw [List.findIdx?_eq_none_iff]
        intro x hx
        simp only [decide_eq_false_iff_not]
        intro hcon
        subst hcon
        exact hk hx
      rw [hnone]
    exact ⟨hg, fun acc => by simp [scanStep, hg]⟩

/-- C7 amended witness: two keys differing only in extension share a glob;
a dot-free key gives an empty glob and is skipped by the scan step. -/
theorem getGlob_amended_witness :
    getGlob ("voice" ++ ".ogg") = getGlob ("voice" ++ ".mp3") ∧
    getGlob "somedir" = "" ∧
    scanStep ⟨[], []⟩ "somedir" = ⟨[], []⟩ :=
  ⟨getGlob_amended.1 "voice" ".ogg" ".mp3" "ogg".data "mp3".data (by decide) (by decide),
   (getGlob_amended.2 "somedir" (by decide)).1,
   (getGlob_amended.2 "somedir" (by decide)).2 ⟨[], []⟩⟩

/-- Looking up `g` after `pushExt` sees the appended extension. -/
lemma lookup_pushExt (f : List (String × Recording)) (g e : String) :
    (pushExt f g e).lookup g =
      (f.lookup g).map (fun r => ⟨r.sentence, r.exts ++ [e]⟩) := by
  induction f with
  | nil => rfl
  | cons p f ih =>
      rcases p with ⟨k, r⟩
      unfold pushExt at ih ⊢
      simp only [List.map_cons]
      by_cases hk : k = g
      · subst hk
        rw [if_pos rfl]
        simp [List.lookup]
      · rw [if_neg hk]
        have hgk : (g == k) = false := by
          simp [Ne.symm hk]
        simp only [List.lookup, hgk]
        exact ih

/-- A lookup on a list extended at the right end, when the key is absent in
the front part. -/
lemma lookup_append_of_none (f₁ f₂ : List (String × Recording)) (g : String)
    (h : f₁.lookup g = none) : (f₁ ++ f₂).lookup g = f₂.lookup g := by
  induction f₁ with
  | nil => rfl
  | cons p f₁ ih =>
      rcases p with ⟨k, r⟩
      by_cases hk : g = k
      · subst hk; simp [List.lookup] at h
      · have hgk : (g == k) = false := by simp [hk]
        simp only [List.cons_append, List.lookup, hgk] at h ⊢
        exact ih h

/-- After `ensureRec`, the entry for `g` exists and carries the previous
`exts` (empty for a fresh entry). -/
lemma lookup_ensureRec (f : List (String × Recording)) (g : String) :
    (ensureRec f g).lookup g = some ((f.lookup g).getD freshRecording) := by
  unfold ensureRec
  cases h : f.lookup g with
  | some r => simp [h]
  | none =>
      simp only [h, Option.isSome_none, Bool.false_eq_true, if_false, Option.getD_none]
      rw [lookup_append_of_none _ _ _ h]
      simp [List.lookup]

/-- C8 counterexample: two keys with the same glob and the same extension
(`"x.a.ogg"`, `"x.b.ogg"`, both glob `"x"` and extension `".ogg"`) leave a
duplicated entry in the recording's `exts` — the `push` has no
deduplication, so `exts` is not a set. -/
theorem exts_duplicate_cex :
    extsOfFiles (scanFold ["x.a.ogg", "x.b.ogg"]).files "x" = [".ogg", ".ogg"] ∧
    ¬ (extsOfFiles (scanFold ["x.a.ogg", "x.b.ogg"]).files "x").Nodup := by decide

/-- C8 amended: the scan step appends the extension to the glob's `exts`
unconditionally — also when the extension is already present, which
duplicates it. `exts` only grows, by exactly the listed extension. -/
theorem scanStep_appends_ext (acc : ScanAcc) (key : String)
    (hglob : getGlob key ≠ "") (hext : getFileExt key ≠ ".txt") :
    extsOfFiles (scanStep acc key).files (getGlob key) =
      extsOfFiles acc.files (getGlob key) ++ [getFileExt key] := by
  simp only [scanStep, if_neg hglob, if_neg hext]
  unfold extsOfFiles
  rw [lookup_pushExt, lookup_ensureRec]
  cases h : acc.files.lookup (getGlob key) <;> simp [h, freshRecording]

/-- C8 amended witness: pushing `".ogg"` for a glob that already has
`".ogg"` appends a duplicate. -/
theorem scanStep_appends_ext_witness :
    extsOfFiles (scanStep ⟨[("x", ⟨none, [".ogg"]⟩)], []⟩ "x.ogg").files (getGlob "x.ogg") =
      extsOfFiles (ScanAcc.files ⟨[("x", ⟨none, [".ogg"]⟩)], []⟩) (getGlob "x.ogg")
        ++ [getFileExt "x.ogg"] :=
  scanStep_appends_ext ⟨[("x", ⟨none, [".ogg"]⟩)], []⟩ "x.ogg" (by decide) (by decide)

/-- C2 counterexample: on the listing `["a.txt", "a.ogg"]`, normalization
starts (trace index 1) strictly before the transcript fetch for `"a"`
completes (trace index 2): `convertMissingToMP3s()` is invoked synchronously
at the end of the scan loop and the transcript batch queue is never awaited,
so LoadingTranscripts has not finished when Normalizing begins. -/
theorem init_transcripts_not_awaited_cex :
    (initTrace ["a.txt", "a.ogg"]).indexOf InitEvent.normalizeStart <
      (initTrace ["a.txt", "a.ogg"]).indexOf (InitEvent.transcriptFetchCompleted "a") := by
  decide

/-- C2 amended: when the scan found at least one glob, the trace of `init`
puts the scan first, normalization start second — before every transcript
fetch completion — and the conversion queue's drain, the mp3-list rebuild,
the readiness flag and the resolution of `init`, in that order, after all
transcript completions of this schedule. Readiness is set only after
normalization resolves, but transcript loading is concurrent with
normalization rather than preceding it. -/
theorem initTrace_stage_order (keys : List String)
    (h : (scanFold keys).paths ≠ []) :
    (initTrace keys).indexOf InitEvent.scanned = 0 ∧
    (initTrace keys).indexOf InitEvent.normalizeStart = 1 ∧
    (∀ g, 2 ≤ (initTrace keys).indexOf (InitEvent.transcriptFetchCompleted g)) ∧
    (initTrace keys).indexOf InitEvent.conversionDrained =
      2 + (scanFold keys).txtItems.length ∧
    (initTrace keys).indexOf InitEvent.readySet =
      4 + (scanFold keys).txtItems.length ∧
    (initTrace keys).indexOf InitEvent.initResolved =
      5 + (scanFold keys).txtItems.length := by
  have hemp : (scanFold keys).paths.isEmpty = false := by
    cases hpe : (scanFold keys).paths with
    | nil => exact absurd hpe h
    | cons a l => rfl
  have htr : initTrace keys =
      [InitEvent.scanned, InitEvent.normalizeStart]
        ++ (scanFold keys).txtItems.map
            (fun it => InitEvent.transcriptFetchCompleted it.2)
        ++ [InitEvent.conversionDrained, InitEvent.mp3ListGenerated,
            InitEvent.readySet, InitEvent.initResolved] := by
    unfold initTrace
    rw [if_neg (by simp [hemp])]
  refine ⟨?_, ?_, ?_, ?_, ?_, ?_⟩
  · rw [htr]
    simp only [List.cons_append, List.nil_append]
    exact List.indexOf_cons_self _ _
  · rw [htr]
    simp only [List.cons_append, List.nil_append]
    rw [List.indexOf_cons_ne _ (by simp), List.indexOf_cons_self]
  · intro g
    rw [htr]
    simp only [List.cons_append, List.nil_append]
    rw [List.indexOf_cons_ne _ (by simp), List.indexOf_cons_ne _ (by simp)]
    omega
  · rw [htr]
    simp only [List.cons_append, List.nil_append]
    have hnm : InitEvent.conversionDrained ∉
        (scanFold keys).txtItems.map
          (fun it => InitEvent.transcriptFetchCompleted it.2) := by simp
    rw [List.indexOf_cons_ne _ (by simp), List.indexOf_cons_ne _ (by simp),
        List.indexOf_append_of_not_mem hnm, List.indexOf_cons_self]
    simp only [List.length_map]
    omega
  · rw [htr]
    simp only [List.cons_append, List.nil_append]
    have hnm : InitEvent.readySet ∉
        (scanFold keys).txtItems.map
          (fun it => InitEvent.transcriptFetchCompleted it.2) := by simp
    rw [List.indexOf_cons_ne _ (by simp), List.indexOf_cons_ne _ (by simp),
        List.indexOf_append_of_not_mem hnm,
        List.indexOf_cons_ne _ (by simp), List.indexOf_cons_ne _ (by simp),
        List.indexOf_cons_self]
    simp only [List.length_map]
    omega
  · rw [htr]
    simp only [List.cons_append, List.nil_append]
    have hnm : InitEvent.initResolved ∉
        (scanFold keys).txtItems.map
          (fun it => InitEvent.transcriptFetchCompleted it.2) := by simp
    rw [List.indexOf_cons_ne _ (by simp), List.indexOf_cons_ne _ (by simp),
        List.indexOf_append_of_not_mem hnm,
        List.indexOf_cons_ne _ (by simp), List.indexOf_cons_ne _ (by simp),
        List.indexOf_cons_ne _ (by simp), List.indexOf_cons_self]
    simp only [List.length_map]
    omega

/-- C2 amended witness: the ordering facts at the concrete listing
`["a.txt", "a.ogg"]`, whose scan finds the glob `"a"`. -/
theorem initTrace_stage_order_witness :
    (initTrace ["a.txt", "a.ogg"]).indexOf InitEvent.scanned = 0 :=
  (initTrace_stage_order ["a.txt", "a.ogg"] (by decide)).1

/-- If `find?` returns `a`, then `a` is the *first* element satisfying the
predicate: it occurs at some index where the earlier elements all fail the
predicate. -/
lemma find?_eq_some_first (p : String → Bool) :
    ∀ (l : List String) (a : String), l.find? p = some a →
      ∃ i, ∃ h : i < l.length, l.get ⟨i, h⟩ = a ∧ p a = true ∧
        ∀ j (hj : j < i), p (l.get ⟨j, Nat.lt_trans hj h⟩) = false := by
  intro l
  induction l with
  | nil => intro a h; cases h
  | cons c l ih =>
      intro a h
      by_cases hc : p c = true
      · rw [List.find?_cons_of_pos _ hc] at h
        injection h with h
        subst h
        exact ⟨0, Nat.succ_pos _, rfl, hc, fun j hj => absurd hj (Nat.not_lt_zero j)⟩
      · have hc' : p c = false := by simpa using hc
        rw [List.find?_cons_of_neg _ (by simp [hc'])] at h
        rcases ih a h with ⟨i, hi, hget, hpa, hfirst⟩
        refine ⟨i + 1, Nat.succ_lt_succ hi, by simpa using hget, hpa, ?_⟩
        intro j hj
        cases j with
        | zero => simpa using hc'
        | succ j' =>
            have hj' : j' < i := Nat.lt_of_succ_lt_succ hj
            simpa using hfirst j' hj'

/-- C9 counterexample: a recording whose encodings are `[".m4a", ".ogg"]` is
converted from `".m4a"` — the code takes the first *encodings-order* match
against the allow-list, not the claim's fixed `'.ogg'`-before-`'.m4a'`
priority, which would select `".ogg"`. -/
theorem selectExt_not_priority_cex :
    conversionJobs ⟨false, [("x", ⟨none, [".m4a", ".ogg"]⟩)], ["x"], []⟩ =
      [("x", ".m4a")] ∧
    selectExtSpecPriority [".m4a", ".ogg"] = some ".ogg" ∧
    selectExt [".m4a", ".ogg"] ≠ selectExtSpecPriority [".m4a", ".ogg"] := by
  decide

/-- C9 amended: every conversion job `(g, e)` pairs a glob missing the
canonical encoding with the *first* extension in that recording's
`exts`-order that lies in the allow-list (all earlier entries are
non-convertible); a missing glob with no convertible extension gets no job
at all (silently skipped). -/
theorem conversionJobs_characterization (st : FilesState) (g : String) :
    (∀ e, (g, e) ∈ conversionJobs st →
        g ∈ getMissingMP3s st ∧
        ∃ i, ∃ h : i < (extsOfFiles st.files g).length,
          (extsOfFiles st.files g).get ⟨i, h⟩ = e ∧
          CONVERTABLE_EXTS.contains e = true ∧
          ∀ j (hj : j < i),
            CONVERTABLE_EXTS.contains
              ((extsOfFiles st.files g).get ⟨j, Nat.lt_trans hj h⟩) = false) ∧
    (g ∈ getMissingMP3s st →
     (∀ e ∈ extsOfFiles st.files g, CONVERTABLE_EXTS.contains e = false) →
     ∀ e, (g, e) ∉ conversionJobs st) := by
  constructor
  · intro e hmem
    rcases List.mem_filterMap.mp hmem with ⟨a, ha, hfa⟩
    cases hsel : selectExt (extsOfFiles st.files a) with
    | none => rw [hsel] at hfa; cases hfa
    | some e' =>
        rw [hsel] at hfa
        simp only [Option.map_some'] at hfa
        injection hfa with hpair
        obtain ⟨rfl, rfl⟩ := Prod.ext_iff.mp hpair
        refine ⟨ha, ?_⟩
        exact find?_eq_some_first _ _ _ hsel
  · intro hmiss hall e hmem
    rcases List.mem_filterMap.mp hmem with ⟨a, ha, hfa⟩
    cases hsel : selectExt (extsOfFiles st.files a) with
    | none => rw [hsel] at hfa; cases hfa
    | some e' =>
        rw [hsel] at hfa
        simp only [Option.map_some'] at hfa
        injection hfa with hpair
        obtain ⟨rfl, rfl⟩ := Prod.ext_iff.mp hpair
        have hp := List.find?_some hsel
        have hmem' := List.mem_of_find?_eq_some hsel
        rw [hall e' hmem'] at hp
        cases hp

/-- C9 amended witness: a glob missing `.mp3` whose encodings are
`[".wav", ".ogg"]` receives the job `("x", ".ogg")` (`.wav` is skipped as
non-convertible), placing `"x"` among the missing globs. -/
theorem conversionJobs_characterization_witness :
    "x" ∈ getMissingMP3s ⟨false, [("x", ⟨none, [".wav", ".ogg"]⟩)], ["x"], []⟩ :=
  ((conversionJobs_characterization
      ⟨false, [("x", ⟨none, [".wav", ".ogg"]⟩)], ["x"], []⟩ "x").1
    ".ogg" (by decide)).1

end VoiceWeb
